import Mathlib

/-!
# Verification of the agent_skills sandbox / path-resolution layer

This file is a shallow embedding of the path- and command-validation core of
the `agent_skills` repository, together with theorems settling the
specification claims about it.

Embedding conventions:

* Filesystem paths are modelled on a symlink-free POSIX filesystem.  An
  absolute path is its list of components below the root (`PathComps`), so
  `Path.resolve()` becomes lexical canonicalization (`normComps`): `..` pops
  a component (staying at the root when already there) and `.` is dropped.
* Python exceptions that a caller observes (`PermissionError`, `ValueError`)
  are modelled as tagged error values; the human-readable message text is
  elided, keeping the pattern or reason that selected the error branch.
* `os.environ` is an association list; dictionaries built by the code are
  association lists with pairwise-distinct keys.
* Python string primitives (`lower`, `strip`, `startswith`, slicing, the
  `in` operator) are re-implemented over `List Char` by structural
  recursion, so every definition evaluates inside the kernel; `lower` and
  `strip` are modelled by their ASCII behaviour, and every string the code
  and the claims exercise here is ASCII.
-/

/-! ## Python string primitives over `List Char` -/

/-- Python `str.lower()` (ASCII behaviour). -/
def sToLower (s : String) : String :=
  String.mk (s.data.map Char.toLower)

/-- The ASCII whitespace stripped by `str.strip()`. -/
def isPyWhitespace (c : Char) : Bool :=
  c == ' ' || c == '\t' || c == '\n' || c == '\r' || c == '\x0b' || c == '\x0c'

/-- Python `str.strip()` (ASCII whitespace). -/
def sTrim (s : String) : String :=
  String.mk (((s.data.dropWhile isPyWhitespace).reverse.dropWhile isPyWhitespace).reverse)

/-- Python `s.startswith(p)`. -/
def sStartsWith (s p : String) : Bool :=
  p.data.isPrefixOf s.data

/-- Python `s.endswith(p)`. -/
def sEndsWith (s p : String) : Bool :=
  p.data.isSuffixOf s.data

/-- Python `s[n:]` (character slicing). -/
def sDrop (s : String) (n : Nat) : String :=
  String.mk (s.data.drop n)

/-- Python `len(s.encode("utf-8"))`. -/
def sUtf8Len (s : String) : Nat :=
  s.data.foldl (fun n c => n + c.utf8Size) 0

/-- Substring test `pat in hay` over char lists. -/
def listContainsSub : List Char → List Char → Bool
  | pat, [] => pat.isEmpty
  | pat, c :: t => pat.isPrefixOf (c :: t) || listContainsSub pat t

/-- The Python `in` operator on strings: `pat` occurs in `hay`. -/
def strContains (hay pat : String) : Bool :=
  listContainsSub pat.data hay.data

/-! ## Paths -/

/-- A canonical absolute POSIX path as its list of components below the
filesystem root: `/skills/safe` is `["skills", "safe"]`, the root is `[]`. -/
abbrev PathComps := List String

/-- Helper for `splitPath`: split a char list on `/`. -/
def splitSlashAux (acc : List Char) : List Char → List String
  | [] => [String.mk acc.reverse]
  | '/' :: rest => String.mk acc.reverse :: splitSlashAux [] rest
  | c :: rest => splitSlashAux (c :: acc) rest

/-- Components of a path string as `pathlib` produces them: split on `/`,
dropping empty pieces (duplicate or leading slashes) and `.` components,
keeping `..`.  Mirrors `PurePosixPath` construction. -/
def splitPath (s : String) : List String :=
  (splitSlashAux [] s.data).filter (fun c => c ≠ "" ∧ c ≠ ".")

/-- Python `Path.resolve()` of `base / comps` on a symlink-free filesystem with
`base` already canonical: append components, where `..` pops the last
component (at the root it stays at the root, as POSIX `realpath` does) and
`.` is dropped. -/
def normComps (base : PathComps) : List String → PathComps
  | [] => base
  | ".." :: rest => normComps base.dropLast rest
  | "." :: rest => normComps base rest
  | c :: rest => normComps (base ++ [c]) rest

/-- Python `Path(s).resolve()` for a raw absolute path string's components. -/
def normAbs (comps : List String) : PathComps :=
  normComps [] comps

/-- Helper for `compsToString`: join components with `/`. -/
def joinComps : List String → String
  | [] => ""
  | [c] => c
  | c :: rest => c ++ "/" ++ joinComps rest

/-- Python `str(path)` for an absolute path: `[]` is `"/"`, otherwise
`/c1/c2/...`. -/
def compsToString (comps : PathComps) : String :=
  "/" ++ joinComps comps

/-- Python `":".join(xs)` (used by `get_safe_env` for `extra_paths`). -/
def joinColon : List String → String
  | [] => ""
  | [c] => c
  | c :: rest => c ++ ":" ++ joinColon rest

/-! ## SandboxConfig and Sandbox path checking (sandbox/sandbox.py) -/

/-- Python `SandboxConfig` (sandbox/sandbox.py lines 15-84): the fields the
path/command validation layer reads.  `workspace_root` is kept as the raw
configured string, canonicalized by `sandboxWorkspace` exactly where
`Sandbox.__init__` calls `Path(...).resolve()`. -/
structure SandboxConfig where
  workspace_root : String
  blacklist : List String
  command_blacklist : List String
  allow_network : Bool
  allow_write : Bool
  max_file_size : Nat
  inherit_path : Bool
  extra_paths : List String
deriving DecidableEq

/-- Default path blacklist (sandbox/sandbox.py lines 22-33). -/
def defaultBlacklist : List String :=
  [".git", ".env", ".env.*", "*.pem", "*.key", "*_secret*", "*password*", ".ssh"]

/-- Default command blacklist (sandbox/sandbox.py lines 36-69). -/
def defaultCommandBlacklist : List String :=
  [ "rm -rf /", "rm -rf /*", "rm -rf ~", "mkfs", "dd if=/dev/zero", "dd of=/dev/",
    "> /dev/sda", "> /dev/nvme",
    ":()\x7b:|:&\x7d;:", ":()\x7b :|:& \x7d;:",
    "sudo", "su ", "su\n", "doas",
    "chmod 777 /", "chmod -R 777 /", "chown -R",
    "shutdown", "reboot", "init 0", "init 6", "systemctl poweroff", "systemctl reboot" ]

/-- Python `SandboxConfig()` with all defaults except the workspace root
(whose Python default is `os.getcwd()`, a process-dependent input). -/
def defaultSandboxConfig (root : String) : SandboxConfig :=
  { workspace_root := root
    blacklist := defaultBlacklist
    command_blacklist := defaultCommandBlacklist
    allow_network := false
    allow_write := true
    max_file_size := 10 * 1024 * 1024
    inherit_path := true
    extra_paths := [] }

/-- Python `Sandbox._workspace_path = Path(config.workspace_root).resolve()`
(sandbox/sandbox.py line 93). -/
def sandboxWorkspace (cfg : SandboxConfig) : PathComps :=
  normAbs (splitPath cfg.workspace_root)

/-- Python `fnmatch.fnmatch` on POSIX for patterns built from literal characters,
`*` and `?`.  The configured default blacklist uses only these; `[...]`
character classes are not modelled.  `*` matches an arbitrary run of
characters, phrased as "the rest of the pattern matches some suffix" so the
recursion is structural on the pattern. -/
def globMatch : List Char → List Char → Bool
  | [], s => s.isEmpty
  | '*' :: ps, s => s.tails.any fun t => globMatch ps t
  | '?' :: ps, s =>
    match s with
    | [] => false
    | _ :: cs => globMatch ps cs
  | p :: ps, s =>
    match s with
    | [] => false
    | c :: cs => (p == c) && globMatch ps cs

/-- Python `fnmatch.fnmatch(name, pat)`. -/
def fnmatchStr (name pat : String) : Bool :=
  globMatch pat.data name.data

/-- Python `Sandbox._matches_pattern(full_path, name, pattern)` (sandbox/sandbox.py
lines 150-164): the pattern matches the filename, or any component of
`Path(full_path).parts` — which for an absolute path starts with the root
marker `"/"`; `path.name` of the root itself is `""`. -/
def matchesBlacklistPat (comps : PathComps) (pat : String) : Bool :=
  fnmatchStr (comps.getLast?.getD "") pat
    || ("/" :: comps).any (fun part => fnmatchStr part pat)

/-- The `PermissionError` outcomes of `Sandbox._check_path_allowed`. -/
inductive PermErr where
  | outsideRoot
  | blacklisted (pat : String)
deriving DecidableEq

/-- Python `Sandbox._check_path_allowed` (sandbox/sandbox.py lines 124-148):
`path.relative_to(workspace)` succeeds exactly when the canonical workspace
components are a leading segment of the canonical path's components; then
the blacklist patterns are tried in order. -/
def checkPathAllowed (cfg : SandboxConfig) (p : PathComps) : Option PermErr :=
  if ¬ (sandboxWorkspace cfg).isPrefixOf p then some .outsideRoot
  else
    match cfg.blacklist.find? (fun pat => matchesBlacklistPat p pat) with
    | some pat => some (.blacklisted pat)
    | none => none

/-- Result of `Sandbox.resolve_path`: the resolved path, or the
`PermissionError` it raises. -/
inductive Resolved where
  | ok (p : PathComps)
  | err (e : PermErr)
deriving DecidableEq

/-- Python `Sandbox.resolve_path` (sandbox/sandbox.py lines 100-122):
absolute inputs are canonicalized as-is (`Path(path).resolve()`), relative
inputs are joined onto the canonical workspace root first
(`(workspace / path).resolve()`); the result is then checked by
`_check_path_allowed`.  `os.path.isabs` on POSIX is a leading `/`. -/
def sandboxResolvePath (cfg : SandboxConfig) (path : String) : Resolved :=
  let resolved : PathComps :=
    if sStartsWith path "/" then normAbs (splitPath path)
    else normComps (sandboxWorkspace cfg) (splitPath path)
  match checkPathAllowed cfg resolved with
  | some e => .err e
  | none => .ok resolved

/-! ## Sandbox command validation (sandbox/sandbox.py lines 191-234) -/

/-- The path-traversal substrings rejected by `Sandbox.validate_command`
(sandbox/sandbox.py lines 212-217), in source order. -/
def traversalPatterns : List String :=
  ["..", "/../", "../", "/.."]

/-- The reserved top-level directory names of the absolute-system-path
regex in `Sandbox.validate_command` (sandbox/sandbox.py line 229). -/
def sysTopDirs : List String :=
  ["etc", "home", "usr", "var", "tmp", "root", "opt", "bin", "sbin", "lib",
   "dev", "proc", "sys", "boot", "mnt", "media", "srv"]

/-- The character class `[a-zA-Z0-9_-]` of the regex's negative
lookbehind. -/
def isWordOrDashChar (c : Char) : Bool :=
  c.isAlpha || c.isDigit || c == '_' || c == '-'

/-- Python `re.search` for the pattern
`(?<![a-zA-Z0-9_-])/(?:etc|home|...|srv)[/\s]?`: some `/` not preceded by a
word character or `-` is followed by one of the reserved directory names
(the trailing `[/\s]?` is optional and so never blocks a match).  The
accumulator carries the previous character for the lookbehind. -/
def absSysPathHit : Option Char → List Char → Bool
  | _, [] => false
  | prev, '/' :: rest =>
    ((match prev with
      | none => true
      | some p => !(isWordOrDashChar p))
        && sysTopDirs.any (fun d => d.data.isPrefixOf rest))
      || absSysPathHit (some '/') rest
  | _, c :: rest => absSysPathHit (some c) rest

/-- The absolute-system-path check of `Sandbox.validate_command`. -/
def absSysPathInCommand (command : String) : Bool :=
  absSysPathHit none command.data

/-- Outcome of `Sandbox.validate_command`: normal return, or the
`PermissionError` raise (tagged with the pattern that fired). -/
inductive CmdCheck where
  | ok
  | blocked (reason : String)
deriving DecidableEq

/-- Python `Sandbox.validate_command` (sandbox/sandbox.py lines 191-234).  Checks in
source order: case-insensitive substring match against the command
blacklist (on `command.lower().strip()`), then the traversal substrings on
the raw command, then the absolute-system-path regex on the raw command. -/
def validateCommand (cfg : SandboxConfig) (command : String) : CmdCheck :=
  let cmdLower := sTrim (sToLower command)
  match cfg.command_blacklist.find? (fun b => strContains cmdLower (sToLower b)) with
  | some b => .blocked b
  | none =>
    match traversalPatterns.find? (fun pat => strContains command pat) with
    | some pat => .blocked pat
    | none =>
      if absSysPathInCommand command then .blocked "absolute system path"
      else .ok

/-! ## Safe environment construction (sandbox/sandbox.py lines 236-276) -/

/-- Python `os.environ` and the returned environment dictionary, as association
lists (the keys written by `get_safe_env` are pairwise distinct, so the
association list is the dictionary). -/
abbrev EnvMap := List (String × String)

/-- Python `env[k]` / `k in env`. -/
def envLookup (env : EnvMap) (k : String) : Option String :=
  (env.find? (fun kv => kv.1 == k)).map (·.2)

/-- The `safe_inherit` list (sandbox/sandbox.py line 265). -/
def safeInheritVars : List String :=
  ["TERM", "USER", "SHELL"]

/-- The `venv_vars` list (sandbox/sandbox.py line 271). -/
def venvVars : List String :=
  ["VIRTUAL_ENV", "CONDA_PREFIX", "CONDA_DEFAULT_ENV"]

/-- Python `Sandbox.get_safe_env` (sandbox/sandbox.py lines 236-276): PATH is the
host PATH when `inherit_path` is set and the host has one, else the fixed
minimal list, with `extra_paths` prepended when configured; HOME and PWD are
pinned to the canonical workspace root; LANG is fixed; the `safe_inherit`
and `venv_vars` variables are forwarded from the host only when present. -/
def getSafeEnv (cfg : SandboxConfig) (hostEnv : EnvMap) : EnvMap :=
  let pathValue :=
    match cfg.inherit_path, envLookup hostEnv "PATH" with
    | true, some v => v
    | _, _ => "/usr/local/bin:/usr/bin:/bin"
  let pathValue :=
    match cfg.extra_paths with
    | [] => pathValue
    | e :: es => joinColon (e :: es) ++ ":" ++ pathValue
  let ws := compsToString (sandboxWorkspace cfg)
  [("PATH", pathValue), ("HOME", ws), ("PWD", ws), ("LANG", "en_US.UTF-8")]
    ++ (safeInheritVars ++ venvVars).filterMap
        (fun v => (envLookup hostEnv v).map (fun x => (v, x)))

/-- The allow-list of environment keys that `get_safe_env` may emit. -/
def safeEnvAllowList : List String :=
  ["PATH", "HOME", "PWD", "LANG", "TERM", "USER", "SHELL",
   "VIRTUAL_ENV", "CONDA_PREFIX", "CONDA_DEFAULT_ENV"]

/-! ## MCP path resolution (mcp/tools.py lines 41-89) -/

/-- Result of the MCP `resolve_path`: the returned `Path`, or the
`ValueError` raise for external absolute paths. -/
inductive McpResolve where
  | ok (raw : PathComps)
  | rejected
deriving DecidableEq

/-- Python `resolve_path` in mcp/tools.py (lines 41-89), with `SKILLS_DIR` given as
canonical components.  The Python function returns the joined `Path`
without calling `.resolve()` and without any containment check, so the
result here is the RAW component list, which may still contain `..`;
absolute inputs are accepted by the plain string-prefix test
`path.startswith(str(SKILLS_DIR))`. -/
def mcpResolvePath (skillsDir : PathComps) (path : String) : McpResolve :=
  let path := sTrim path
  if path = "" ∨ path = "/" then .ok skillsDir
  else if sStartsWith path "skills/" then .ok (skillsDir ++ splitPath (sDrop path 7))
  else if sStartsWith path "./" then .ok (skillsDir ++ splitPath (sDrop path 2))
  else if sStartsWith path "/" then
    if sStartsWith path (compsToString skillsDir) then .ok (splitPath path)
    else .rejected
  else .ok (skillsDir ++ splitPath path)

/-! ## SkillManager containment and add_file (core/skill_manager.py) -/

/-- Success/error status of a `ToolResult` (core/types.py lines 12-16). -/
inductive MStatus where
  | success
  | error
deriving DecidableEq

/-- Python `(skill_path / file_path).resolve()` (core/skill_manager.py line 350):
`pathlib` replaces the base entirely when `file_path` is absolute. -/
def skillTargetFile (skillPath : PathComps) (filePath : String) : PathComps :=
  if sStartsWith filePath "/" then normAbs (splitPath filePath)
  else normComps (normAbs skillPath) (splitPath filePath)

/-- The containment test of `SkillManager.add_file` (core/skill_manager.py
line 353) — the identical expression also guards `read_file` (line 458):
`str(target_file).startswith(str(skill_path.resolve()))`, a PLAIN STRING
prefix test on the rendered paths. -/
def skillContainsTarget (skillPath : PathComps) (target : PathComps) : Bool :=
  sStartsWith (compsToString target) (compsToString (normAbs skillPath))

/-- A flat model of the mutable filesystem state touched by the write
paths: the set of regular files (path to content) and the set of
directories, both as lists. -/
structure MFileSystem where
  files : List (PathComps × String)
  dirs : List PathComps
deriving DecidableEq

/-- Create-or-overwrite a file in the files association list. -/
def writeAssocFile : List (PathComps × String) → PathComps → String → List (PathComps × String)
  | [], p, c => [(p, c)]
  | (q, c0) :: t, p, c => if q = p then (p, c) :: t else (q, c0) :: writeAssocFile t p c

/-- Python `p.is_dir()` in the flat filesystem model. -/
def fsIsDir (fs : MFileSystem) (p : PathComps) : Bool :=
  fs.dirs.contains p

/-- Python `PYPROJECT_TOML_TEMPLATE.format(skill_name=name)` (core/skill_manager.py
lines 22-30). -/
def pyprojectToml (skillName : String) : String :=
  "[project]\nname = \"" ++ skillName ++ "-scripts\"\nversion = \"0.1.0\"\nrequires-python = \">=3.12\"\ndependencies = []\n\n[tool.uv]\nmanaged = true\n"

/-- Outcome of `SkillManager.add_file`: the `ToolResult` status and the
filesystem after the call. -/
structure AddFileOut where
  status : MStatus
  fs : MFileSystem
deriving DecidableEq

/-- Python `SkillManager.add_file` (core/skill_manager.py lines 328-382) after the
skill lookup succeeded with canonical directory `skillPath`:
resolve `skill_dir / file_path`, apply the string-prefix containment test,
and on the error path return before any filesystem modification; on the
accepting path `mkdir -p` the parent, write the file, and for
`scripts/*.py` additionally create `scripts/pyproject.toml` when absent. -/
def skillAddFile (skillName : String) (skillPath : PathComps) (filePath content : String)
    (fs : MFileSystem) : AddFileOut :=
  let target := skillTargetFile skillPath filePath
  if ¬ skillContainsTarget skillPath target then ⟨.error, fs⟩
  else
    let fs1 : MFileSystem := { fs with dirs := fs.dirs ++ [target.dropLast] }
    let fs2 : MFileSystem := { fs1 with files := writeAssocFile fs1.files target content }
    if sEndsWith filePath ".py" && sStartsWith filePath "scripts/" then
      let pyprojPath := normAbs skillPath ++ ["scripts", "pyproject.toml"]
      if (fs2.files.find? (fun f => f.1 = pyprojPath)).isSome then ⟨.success, fs2⟩
      else
        ⟨.success,
         { fs2 with
             dirs := fs2.dirs ++ [normAbs skillPath ++ ["scripts"]]
             files := writeAssocFile fs2.files pyprojPath (pyprojectToml skillName) }⟩
    else ⟨.success, fs2⟩

/-! ## Editor.write and check_file_size (core/editor.py, sandbox/sandbox.py) -/

/-- Python `Sandbox.check_file_size` (sandbox/sandbox.py lines 176-189): `True`
exactly when the `ValueError` is raised. -/
def checkFileSizeFails (cfg : SandboxConfig) (size : Nat) : Bool :=
  size > cfg.max_file_size

/-- Python `Editor.write` (core/editor.py lines 121-160): `check_write_allowed`,
`resolve_path`, `check_file_size(len(content.encode("utf-8")))` — all
BEFORE any filesystem modification — then the `is_dir` test, `mkdir -p` of
the parent when `create_dirs`, and the write.  Every raise is caught and
converted to an error `ToolResult`. -/
def editorWrite (cfg : SandboxConfig) (fs : MFileSystem) (path content : String)
    (create_dirs : Bool) : MStatus × MFileSystem :=
  if ¬ cfg.allow_write then (.error, fs)
  else
    match sandboxResolvePath cfg path with
    | .err _ => (.error, fs)
    | .ok resolved =>
      if checkFileSizeFails cfg (sUtf8Len content) then (.error, fs)
      else if fsIsDir fs resolved then (.error, fs)
      else
        let fs1 : MFileSystem :=
          if create_dirs then { fs with dirs := fs.dirs ++ [resolved.dropLast] } else fs
        (.success, { fs1 with files := writeAssocFile fs1.files resolved content })

/-! ## Executor.bash (core/executor.py lines 34-134) -/

/-- What the spawned subprocess does: completes with a return code (Python's
`process.returncode`, `None` only in degenerate cases) and output, or hits
the `asyncio.wait_for` timeout.  This is the oracle for the one genuinely
external event in `Executor.bash`. -/
inductive ProcOutcome where
  | completed (returncode : Option Int) (stdout stderr : String)
  | timedOut
deriving DecidableEq

/-- Python `CommandResult` (core/types.py lines 85-143), without the wall-clock
`duration_ms` and the `pid` bookkeeping fields. -/
structure MCommandResult where
  status : MStatus
  exit_code : Int
  stdout : String
  stderr : String
  command : String
  timed_out : Bool
deriving DecidableEq

/-- Python `CommandResult.error(...)` (core/types.py lines 126-143). -/
def mCommandError (stderr : String) (exit_code : Int) (command stdout : String)
    (timed_out : Bool) : MCommandResult :=
  ⟨.error, exit_code, stdout, stderr, command, timed_out⟩

/-- Python `Executor.bash` (core/executor.py lines 34-134): validate the command,
resolve the working directory (`PermissionError` from either becomes an
error result with the default exit code 1 and `timed_out=False`), then run
the subprocess.  On completion, `exit_code = process.returncode or 0`; zero
is a success result, non-zero an error result, both with
`timed_out=False`.  On `asyncio.TimeoutError` the process is killed
(`process.kill()`; the second component records that the kill ran) and the
result is `CommandResult.error(exit_code=124, timed_out=True)`. -/
def bashModel (cfg : SandboxConfig) (command : String) (cwd : Option String)
    (outcome : ProcOutcome) : MCommandResult × Bool :=
  match validateCommand cfg command with
  | .blocked r => (mCommandError ("Permission denied: " ++ r) 1 command "" false, false)
  | .ok =>
    let wd : Resolved :=
      match cwd with
      | some c => sandboxResolvePath cfg c
      | none => .ok (sandboxWorkspace cfg)
    match wd with
    | .err _ => (mCommandError "Permission denied" 1 command "" false, false)
    | .ok _ =>
      match outcome with
      | .completed rc out err =>
        let ec : Int :=
          match rc with
          | none => 0
          | some n => if n = 0 then 0 else n
        if ec = 0 then (⟨.success, ec, out, err, command, false⟩, false)
        else (⟨.error, ec, out, err, command, false⟩, false)
      | .timedOut =>
        (mCommandError "Command timed out" 124 command "" true, true)

/-! ## Skill discovery, lookup and creation (core/skill_manager.py)

The discovery filesystem is modelled one level deeper than the flat write
model: a map from a directory path (an opaque string, as `SkillManager`
stores `Path` objects it never canonicalizes) to its child entries, in
`iterdir()` order.  A `SKILL.md` file is represented by the outcome of
`SkillManager._parse_skill_file` on it — the regex + `yaml.safe_load` step
itself is not re-implemented; `none` stands for an unparseable descriptor
(or any exception while reading), which discovery skips. -/

/-- The `name`/`description` keys of a parsed YAML frontmatter dict. -/
structure Frontmatter where
  nameKey : Option String
  descKey : Option String
deriving DecidableEq

/-- One child of a skills directory, as `iterdir` + the descriptor parse
sees it. -/
structure DirEntry where
  entryName : String
  isDir : Bool
  hasSkillFile : Bool
  parsed : Option Frontmatter
deriving DecidableEq

/-- The discovery filesystem: directory path to child entries. -/
abbrev SkillFS := List (String × List DirEntry)

/-- Children of a directory; `none` when the directory does not exist. -/
def fsDirEntries (fs : SkillFS) (dir : String) : Option (List DirEntry) :=
  (fs.find? (fun d => d.1 == dir)).map (·.2)

/-- Python `SkillInfo` (core/types.py lines 146-157): the fields discovery fills. -/
structure MSkillInfo where
  name : String
  description : String
  path : String
deriving DecidableEq

/-- The body of the discovery loop for one entry (core/skill_manager.py
lines 92-118): skip non-directories, directories without `SKILL.md`, and
unparseable descriptors; otherwise the name is `frontmatter.get("name",
item.name)`, the description `frontmatter.get("description", "")`, the path
`str(item)`. -/
def candidateOf (dirPath : String) (e : DirEntry) : Option MSkillInfo :=
  if e.isDir && e.hasSkillFile then
    match e.parsed with
    | some fm => some ⟨fm.nameKey.getD e.entryName, fm.descKey.getD "", dirPath ++ "/" ++ e.entryName⟩
    | none => none
  else none

/-- All discovery candidates of one configured directory, in `iterdir`
order (`if not skills_dir.exists(): continue` yields none). -/
def scanDir (fs : SkillFS) (dir : String) : List MSkillInfo :=
  match fsDirEntries fs dir with
  | none => []
  | some entries => entries.filterMap (candidateOf dir)

/-- Candidates of all configured directories, in priority order. -/
def scanAll (fs : SkillFS) : List String → List MSkillInfo
  | [] => []
  | d :: rest => scanDir fs d ++ scanAll fs rest

/-- The `seen_names` check of the discovery loop: keep the first candidate
of each name, in order. -/
def dedupeByName : List MSkillInfo → List String → List MSkillInfo
  | [], _ => []
  | s :: rest, seen =>
    if seen.contains s.name then dedupeByName rest seen
    else s :: dedupeByName rest (s.name :: seen)

/-- Insertion step of the final `sorted(skills, key=lambda s: s.name)`. -/
def insertByName (s : MSkillInfo) : List MSkillInfo → List MSkillInfo
  | [] => [s]
  | t :: ts => if s.name ≤ t.name then s :: t :: ts else t :: insertByName s ts

/-- Python `sorted(skills, key=lambda s: s.name)` as insertion sort.  After
deduplication the names are pairwise distinct, so any name-sort produces
the same list and stability is immaterial. -/
def sortByName : List MSkillInfo → List MSkillInfo
  | [] => []
  | s :: ss => insertByName s (sortByName ss)

/-- Python `SkillManager.discover_skills` (core/skill_manager.py lines 75-120):
scan the configured directories in priority order, shadow repeated names
(first seen wins), sort the result by name. -/
def discoverSkills (fs : SkillFS) (dirs : List String) : List MSkillInfo :=
  sortByName (dedupeByName (scanAll fs dirs) [])

/-- Python `SkillManager.find_skill` (core/skill_manager.py lines 122-135): first
exact name match in `discover_skills()`. -/
def findSkill (fs : SkillFS) (dirs : List String) (name : String) : Option MSkillInfo :=
  (discoverSkills fs dirs).find? (fun s => s.name == name)

/-- The first candidate carrying a given name in priority scan order —
before deduplication and sorting.  Discovery keeps exactly this one. -/
def firstHit (fs : SkillFS) (dirs : List String) (x : String) : Option MSkillInfo :=
  (scanAll fs dirs).find? (fun s => s.name == x)

/-- Python `SkillManager.__init__` (core/skill_manager.py lines 44-73): the
user-provided directories that exist come FIRST, the built-in directory is
appended LAST when it exists.  (`exists()` and `is_dir()` coincide in the
model, whose filesystem holds only directories.) -/
def initSkillsDirs (fs : SkillFS) (userDirs : List String) (builtinDir : String) : List String :=
  (userDirs.filter (fun d => (fsDirEntries fs d).isSome)) ++
    (if (fsDirEntries fs builtinDir).isSome then [builtinDir] else [])

/-- Python `re.match("^[a-z][a-z0-9-]*$", name)` body: a lowercase letter followed
by lowercase letters, digits and hyphens. -/
def skillNamePatternCore (cs : List Char) : Bool :=
  match cs with
  | [] => false
  | c :: rest => c.isLower && rest.all (fun d => d.isLower || d.isDigit || d == '-')

/-- The full name validation of `SkillManager.create` (core/skill_manager.py
line 193).  Python's `$` also matches just before one final newline, so
`"abc\n"` passes — transcribed faithfully. -/
def validSkillName (s : String) : Bool :=
  skillNamePatternCore s.data
    || (match s.data.getLast? with
        | some '\n' => skillNamePatternCore s.data.dropLast
        | _ => false)

/-- Python `(skill_dir).exists()` for `skill_dir = base / name`: some child entry
of `base` is already called `name`. -/
def dirHasEntry (fs : SkillFS) (base name : String) : Bool :=
  match fsDirEntries fs base with
  | some es => es.any (fun e => e.entryName == name)
  | none => false

/-- Python `mkdir(parents=True)` + placing a new child entry: append the entry to
`base`'s children (creating `base` itself when missing, as `parents=True`
does). -/
def fsAddEntry (fs : SkillFS) (base : String) (e : DirEntry) : SkillFS :=
  match fs with
  | [] => [(base, [e])]
  | (d, es) :: t => if d == base then (d, es ++ [e]) :: t else (d, es) :: fsAddEntry t base e

/-- Outcome of `SkillManager.create`: the `ToolResult` status and the
manager / filesystem state after the call. -/
structure CreateOut where
  status : MStatus
  skillsDirs : List String
  fs : SkillFS
deriving DecidableEq

/-- Python `SkillManager.create` (core/skill_manager.py lines 172-234): validate
the name, refuse when `base / name` exists, create the directory, write a
`SKILL.md` whose frontmatter is exactly `{name, description}` (the
`yaml.dump` / `yaml.safe_load` round-trip of `_format_skill_file` followed
by `_parse_skill_file` is modelled as the identity on that pair; the
instructions body does not influence discovery), then append the parent to
`_skills_dirs` when not already present. -/
def skillCreate (skillsDirs : List String) (builtinDir : String) (fs : SkillFS)
    (name description : String) (targetDir : Option String) : CreateOut :=
  if ¬ validSkillName name then ⟨.error, skillsDirs, fs⟩
  else
    let base := targetDir.getD builtinDir
    if dirHasEntry fs base name then ⟨.error, skillsDirs, fs⟩
    else
      let newEntry : DirEntry := ⟨name, true, true, some ⟨some name, some description⟩⟩
      let fs1 := fsAddEntry fs base newEntry
      let dirs1 := if skillsDirs.contains base then skillsDirs else skillsDirs ++ [base]
      ⟨.success, dirs1, fs1⟩

/-! ## General lemmas about the embedded combinators -/

theorem find_eq_filterHead {α : Type} (p : α → Bool) (l : List α) :
    l.find? p = (l.filter p).head? := by
  induction l with
  | nil => rfl
  | cons a t ih =>
    cases hpa : p a
    · rw [List.find?_cons_of_neg _ (by simp [hpa]), List.filter_cons_of_neg (by simp [hpa]), ih]
    · rw [List.find?_cons_of_pos _ hpa, List.filter_cons_of_pos hpa, List.head?_cons]

theorem insertByName_perm (s : MSkillInfo) (l : List MSkillInfo) :
    (insertByName s l).Perm (s :: l) := by
  induction l with
  | nil => exact List.Perm.refl _
  | cons t ts ih =>
    have hdef : insertByName s (t :: ts)
        = if s.name ≤ t.name then s :: t :: ts else t :: insertByName s ts := rfl
    by_cases h : s.name ≤ t.name
    · rw [hdef, if_pos h]
    · rw [hdef, if_neg h]
      exact (ih.cons t).trans (List.Perm.swap s t ts)

theorem sortByName_perm (l : List MSkillInfo) : (sortByName l).Perm l := by
  induction l with
  | nil => exact List.Perm.refl _
  | cons s ss ih => exact (insertByName_perm s (sortByName ss)).trans (ih.cons s)

/-- The resolve-then-check invariant of `Sandbox.resolve_path`: every path
it returns has the canonical workspace root as a leading component
segment (equality included). -/
theorem sandboxResolvePath_within (cfg : SandboxConfig) (p : String) (r : PathComps)
    (h : sandboxResolvePath cfg p = Resolved.ok r) :
    (sandboxWorkspace cfg).isPrefixOf r = true := by
  simp only [sandboxResolvePath] at h
  set X := if sStartsWith p "/" then normAbs (splitPath p)
    else normComps (sandboxWorkspace cfg) (splitPath p) with hX
  cases hchk : checkPathAllowed cfg X with
  | some e => rw [hchk] at h; simp at h
  | none =>
    rw [hchk] at h
    injection h with h2
    subst h2
    by_cases hpre : (sandboxWorkspace cfg).isPrefixOf X = true
    · exact hpre
    · have : checkPathAllowed cfg X = some .outsideRoot := by
        simp [checkPathAllowed, hpre]
      rw [this] at hchk
      cases hchk

theorem dedupe_filter_of_seen (l : List MSkillInfo) (seen : List String) (x : String)
    (hx : seen.contains x = true) :
    (dedupeByName l seen).filter (fun s => s.name == x) = [] := by
  induction l generalizing seen with
  | nil => rfl
  | cons s rest ih =>
    have hdef : dedupeByName (s :: rest) seen
        = if seen.contains s.name then dedupeByName rest seen
          else s :: dedupeByName rest (s.name :: seen) := rfl
    by_cases hs : seen.contains s.name = true
    · rw [hdef, if_pos hs]
      exact ih seen hx
    · rw [hdef, if_neg hs]
      have hne : (s.name == x) = false := by
        by_cases he : s.name = x
        · exact absurd (he ▸ hx) hs
        · exact beq_eq_false_iff_ne.mpr he
      rw [List.filter_cons_of_neg (by simp [hne])]
      exact ih (s.name :: seen) (by rw [List.contains_cons, hx, Bool.or_true])

theorem dedupe_filter_of_not_seen (l : List MSkillInfo) (seen : List String) (x : String)
    (hx : seen.contains x = false) :
    (dedupeByName l seen).filter (fun s => s.name == x)
      = (l.find? (fun s => s.name == x)).toList := by
  induction l generalizing seen with
  | nil => rfl
  | cons s rest ih =>
    have hdef : dedupeByName (s :: rest) seen
        = if seen.contains s.name then dedupeByName rest seen
          else s :: dedupeByName rest (s.name :: seen) := rfl
    by_cases hs : seen.contains s.name = true
    · rw [hdef, if_pos hs]
      have hne : (s.name == x) = false := by
        by_cases he : s.name = x
        · exact absurd (he ▸ hs) (by rw [hx]; exact Bool.false_ne_true)
        · exact beq_eq_false_iff_ne.mpr he
      rw [List.find?_cons_of_neg _ (by simp [hne])]
      exact ih seen hx
    · rw [hdef, if_neg hs]
      by_cases he : (s.name == x) = true
      · rw [@List.filter_cons_of_pos _ (fun si => si.name == x) s (dedupeByName rest (s.name :: seen)) he,
          @List.find?_cons_of_pos _ (fun si => si.name == x) s rest he]
        have hx' : (s.name :: seen).contains x = true := by
          have hxe : (x == s.name) = true := beq_iff_eq.mpr (beq_iff_eq.mp he).symm
          rw [List.contains_cons, hxe, Bool.true_or]
        rw [dedupe_filter_of_seen rest (s.name :: seen) x hx']
        rfl
      · have hne : (s.name == x) = false := by
          cases hb : (s.name == x)
          · rfl
          · exact absurd hb he
        have hxs : (x == s.name) = false :=
          beq_eq_false_iff_ne.mpr (Ne.symm (beq_eq_false_iff_ne.mp hne))
        rw [List.filter_cons_of_neg (by simp [hne]), List.find?_cons_of_neg _ (by simp [hne])]
        exact ih (s.name :: seen) (by rw [List.contains_cons, hx, hxs]; rfl)

theorem discover_filter (fs : SkillFS) (dirs : List String) (x : String) :
    (discoverSkills fs dirs).filter (fun s => s.name == x) = (firstHit fs dirs x).toList := by
  have hperm : ((discoverSkills fs dirs).filter (fun s => s.name == x)).Perm
      ((dedupeByName (scanAll fs dirs) []).filter (fun s => s.name == x)) := by
    simp only [discoverSkills]
    exact (sortByName_perm _).filter _
  rw [dedupe_filter_of_not_seen _ [] x rfl] at hperm
  cases hfh : (scanAll fs dirs).find? (fun s => s.name == x) with
  | none =>
    rw [hfh] at hperm
    have hnil : (discoverSkills fs dirs).filter (fun s => s.name == x) = [] :=
      List.perm_nil.mp hperm
    simp only [firstHit]
    rw [hfh]
    exact hnil
  | some s =>
    rw [hfh] at hperm
    have hone : (discoverSkills fs dirs).filter (fun s => s.name == x) = [s] :=
      List.perm_singleton.mp hperm
    simp only [firstHit]
    rw [hfh]
    exact hone

theorem scanAll_append (fs : SkillFS) (l1 l2 : List String) :
    scanAll fs (l1 ++ l2) = scanAll fs l1 ++ scanAll fs l2 := by
  induction l1 with
  | nil => rfl
  | cons d rest ih => simp [scanAll, ih]

theorem mem_scanAll (fs : SkillFS) (l : List String) (y : MSkillInfo)
    (h : y ∈ scanAll fs l) : ∃ d ∈ l, y ∈ scanDir fs d := by
  induction l with
  | nil => cases h
  | cons d rest ih =>
    rcases List.mem_append.mp h with h1 | h1
    · exact ⟨d, List.mem_cons_self d rest, h1⟩
    · rcases ih h1 with ⟨d', hd', hy⟩
      exact ⟨d', List.mem_cons_of_mem d hd', hy⟩

theorem fsDirEntries_addEntry_self (fs : SkillFS) (base : String) (e : DirEntry) :
    fsDirEntries (fsAddEntry fs base e) base = some ((fsDirEntries fs base).getD [] ++ [e]) := by
  induction fs with
  | nil =>
    simp only [fsAddEntry, fsDirEntries]
    rw [List.find?_cons_of_pos _ (by simp)]
    rfl
  | cons kv rest ih =>
    obtain ⟨d, es⟩ := kv
    by_cases hd : d = base
    · subst hd
      have h1 : fsAddEntry ((d, es) :: rest) d e = (d, es ++ [e]) :: rest := by
        simp [fsAddEntry]
      rw [h1]
      simp only [fsDirEntries]
      rw [List.find?_cons_of_pos _ (by simp), List.find?_cons_of_pos _ (by simp)]
      rfl
    · have hbd : (d == base) = false := beq_eq_false_iff_ne.mpr hd
      have h1 : fsAddEntry ((d, es) :: rest) base e = (d, es) :: fsAddEntry rest base e := by
        simp [fsAddEntry, hbd]
      rw [h1]
      have h2 : fsDirEntries ((d, es) :: fsAddEntry rest base e) base
          = fsDirEntries (fsAddEntry rest base e) base := by
        simp only [fsDirEntries]
        rw [List.find?_cons_of_neg _ (by simp [hbd])]
      have h3 : fsDirEntries ((d, es) :: rest) base = fsDirEntries rest base := by
        simp only [fsDirEntries]
        rw [List.find?_cons_of_neg _ (by simp [hbd])]
      rw [h2, h3, ih]

theorem fsDirEntries_addEntry_ne (fs : SkillFS) (base : String) (e : DirEntry)
    (d : String) (hd : d ≠ base) :
    fsDirEntries (fsAddEntry fs base e) d = fsDirEntries fs d := by
  have hbd : (base == d) = false := beq_eq_false_iff_ne.mpr (Ne.symm hd)
  induction fs with
  | nil =>
    simp only [fsAddEntry, fsDirEntries]
    rw [List.find?_cons_of_neg _ (by simp [hbd])]
  | cons kv rest ih =>
    obtain ⟨k, es⟩ := kv
    by_cases hk : k = base
    · subst hk
      have h1 : fsAddEntry ((k, es) :: rest) k e = (k, es ++ [e]) :: rest := by
        simp [fsAddEntry]
      rw [h1]
      simp only [fsDirEntries]
      rw [List.find?_cons_of_neg _ (by simp [hbd]), List.find?_cons_of_neg _ (by simp [hbd])]
    · have hkb : (k == base) = false := beq_eq_false_iff_ne.mpr hk
      have h1 : fsAddEntry ((k, es) :: rest) base e = (k, es) :: fsAddEntry rest base e := by
        simp [fsAddEntry, hkb]
      rw [h1]
      by_cases hkd : k = d
      · subst hkd
        simp only [fsDirEntries]
        rw [List.find?_cons_of_pos _ (by simp), List.find?_cons_of_pos _ (by simp)]
      · have hkdb : (k == d) = false := beq_eq_false_iff_ne.mpr hkd
        have h2 : fsDirEntries ((k, es) :: fsAddEntry rest base e) d
            = fsDirEntries (fsAddEntry rest base e) d := by
          simp only [fsDirEntries]
          rw [List.find?_cons_of_neg _ (by simp [hkdb])]
        have h3 : fsDirEntries ((k, es) :: rest) d = fsDirEntries rest d := by
          simp only [fsDirEntries]
          rw [List.find?_cons_of_neg _ (by simp [hkdb])]
        rw [h2, h3, ih]

theorem scanDir_eq_getD (fs : SkillFS) (d : String) :
    scanDir fs d = ((fsDirEntries fs d).getD []).filterMap (candidateOf d) := by
  simp only [scanDir]
  cases fsDirEntries fs d <;> rfl

theorem mem_takeWhile_pred {p : String → Bool} {l : List String} {a : String}
    (h : a ∈ l.takeWhile p) : p a = true := by
  induction l with
  | nil => cases h
  | cons b bs ih =>
    by_cases hb : p b = true
    · rw [List.takeWhile_cons_of_pos hb] at h
      rcases List.mem_cons.mp h with h1 | h1
      · subst h1; exact hb
      · exact ih h1
    · rw [List.takeWhile_cons_of_neg hb] at h
      cases h

theorem dropWhile_ne_cons {l : List String} {a : String} (h : a ∈ l) :
    ∃ t, l.dropWhile (fun d => !(d == a)) = a :: t := by
  induction l with
  | nil => cases h
  | cons b bs ih =>
    by_cases hb : b = a
    · subst hb
      exact ⟨bs, by rw [List.dropWhile_cons_of_neg (by simp)]⟩
    · have hba : (b == a) = false := beq_eq_false_iff_ne.mpr hb
      rcases List.mem_cons.mp h with h1 | h1
      · exact absurd h1.symm hb
      · rcases ih h1 with ⟨t, ht⟩
        exact ⟨t, by rw [List.dropWhile_cons_of_pos (by simp [hba]), ht]⟩

theorem mem_env_filterMap {names : List String} {f : String → Option String}
    {kv : String × String}
    (h : kv ∈ names.filterMap (fun v => (f v).map (fun x => (v, x)))) :
    kv.1 ∈ names := by
  induction names with
  | nil => cases h
  | cons a t ih =>
    cases hfa : f a with
    | none =>
      rw [List.filterMap_cons_none (by rw [hfa]; rfl)] at h
      exact List.mem_cons_of_mem a (ih h)
    | some x =>
      rw [List.filterMap_cons_some (by rw [hfa]; rfl)] at h
      rcases List.mem_cons.mp h with h1 | h1
      · rw [h1]
        exact List.mem_cons_self a t
      · exact List.mem_cons_of_mem a (ih h1)

/-! ## Claim theorems -/

/-- Claim C1 (code bug): the Sandbox resolver does reject all three
traversal probes, but the MCP `resolve_path` does not canonicalize at all:
`"skills/../../etc/passwd"` and `"../../../etc/passwd"` are returned as
joined paths whose canonical form lies outside the skills root instead of
failing with an outside-root error (`"/etc/passwd"` alone is rejected by
the absolute-path branch).  This contradicts the invariant, the function's
own docstring, and tests/test_mcp_path_safety.py. -/
theorem mcp_resolve_traversal_escapes :
    mcpResolvePath ["skills"] "skills/../../etc/passwd"
        = McpResolve.ok ["skills", "..", "..", "etc", "passwd"]
    ∧ normAbs ["skills", "..", "..", "etc", "passwd"] = ["etc", "passwd"]
    ∧ mcpResolvePath ["skills"] "../../../etc/passwd"
        = McpResolve.ok ["skills", "..", "..", "..", "etc", "passwd"]
    ∧ normAbs ["skills", "..", "..", "..", "etc", "passwd"] = ["etc", "passwd"]
    ∧ (["skills"] : PathComps).isPrefixOf ["etc", "passwd"] = false
    ∧ mcpResolvePath ["skills"] "/etc/passwd" = McpResolve.rejected
    ∧ sandboxResolvePath (defaultSandboxConfig "/skills") "skills/../../etc/passwd"
        = Resolved.err .outsideRoot
    ∧ sandboxResolvePath (defaultSandboxConfig "/skills") "../../../etc/passwd"
        = Resolved.err .outsideRoot
    ∧ sandboxResolvePath (defaultSandboxConfig "/skills") "/etc/passwd"
        = Resolved.err .outsideRoot := by decide

/-- Claim C2 (code bug): the containment checks are PLAIN STRING prefix
tests, not component-wise ones.  A canonical target inside the sibling
directory `/skills/safe-evil` passes `add_file`/`read_file`'s
`str(target).startswith(str(skill_path))` for the skill at `/skills/safe`,
and the MCP `resolve_path` accepts the absolute path `"/skills-evil/x"`
because the string `"/skills-evil/x"` starts with `"/skills"`. -/
theorem containment_accepts_string_extension_siblings :
    skillTargetFile ["skills", "safe"] "../safe-evil/x.txt" = ["skills", "safe-evil", "x.txt"]
    ∧ skillContainsTarget ["skills", "safe"] ["skills", "safe-evil", "x.txt"] = true
    ∧ (["skills", "safe"] : PathComps).isPrefixOf ["skills", "safe-evil", "x.txt"] = false
    ∧ mcpResolvePath ["skills"] "/skills-evil/x" = McpResolve.ok ["skills-evil", "x"]
    ∧ (["skills"] : PathComps).isPrefixOf ["skills-evil", "x"] = false := by decide

/-- Claim C3 (code bug): for the spec's own probe `"../escaped.txt"` the
claim holds — `add_file` errors and the filesystem is untouched — but the
universally quantified statement fails: `"../safe-evil/x.txt"` resolves
outside the skill directory `/skills/safe`, yet the string-prefix
containment test accepts it, so `add_file` returns success and writes
`/skills/safe-evil/x.txt`. -/
theorem add_file_escape_write :
    (skillAddFile "safe" ["skills", "safe"] "../escaped.txt" "x" ⟨[], []⟩).status = MStatus.error
    ∧ (skillAddFile "safe" ["skills", "safe"] "../escaped.txt" "x" ⟨[], []⟩).fs
        = (⟨[], []⟩ : MFileSystem)
    ∧ skillTargetFile ["skills", "safe"] "../safe-evil/x.txt" = ["skills", "safe-evil", "x.txt"]
    ∧ (["skills", "safe"] : PathComps).isPrefixOf ["skills", "safe-evil", "x.txt"] = false
    ∧ (skillAddFile "safe" ["skills", "safe"] "../safe-evil/x.txt" "x" ⟨[], []⟩).status
        = MStatus.success
    ∧ (skillAddFile "safe" ["skills", "safe"] "../safe-evil/x.txt" "x" ⟨[], []⟩).fs.files
        = [(["skills", "safe-evil", "x.txt"], "x")] := by decide

/-- Claim C4: every command string containing `".."` as a substring is
rejected by `validate_command` with a `PermissionError`-class (blocked)
outcome, whatever the configuration: if no blacklist entry fires first, the
traversal pattern `".."` — the first in the list — fires. -/
theorem validate_command_blocks_dotdot (cfg : SandboxConfig) (cmd : String)
    (h : strContains cmd ".." = true) :
    ∃ r, validateCommand cfg cmd = CmdCheck.blocked r := by
  simp only [validateCommand]
  cases hbl : cfg.command_blacklist.find?
      (fun b => strContains (sTrim (sToLower cmd)) (sToLower b)) with
  | some b =>
    exact ⟨b, rfl⟩
  | none =>
    have ht : List.find? (fun pat => strContains cmd pat) traversalPatterns = some ".." := by
      have hp : traversalPatterns = ".." :: ["/../", "../", "/.."] := rfl
      rw [hp, List.find?_cons_of_pos _ h]
    rw [ht]
    exact ⟨"..", rfl⟩

/-- Witness for C4 at the concrete command `"cd .."`. -/
theorem validate_command_blocks_dotdot_witness :
    strContains "cd .." ".." = true
    ∧ ∃ r, validateCommand (defaultSandboxConfig "/ws") "cd .." = CmdCheck.blocked r :=
  ⟨by decide, validate_command_blocks_dotdot (defaultSandboxConfig "/ws") "cd .." (by decide)⟩

/-- Claim C5: under the default blacklist, `"rm -rf /"`, the fork bomb and
`"sudo reboot"` are rejected (each matching a deny rule), while
`"echo hello"` and `"ls -la"` are accepted — in particular the flag
`"-la"` does not trip the absolute-system-path pattern. -/
theorem default_blacklist_examples :
    validateCommand (defaultSandboxConfig "/ws") "rm -rf /" = CmdCheck.blocked "rm -rf /"
    ∧ validateCommand (defaultSandboxConfig "/ws") ":()\x7b:|:&\x7d;:"
        = CmdCheck.blocked ":()\x7b:|:&\x7d;:"
    ∧ validateCommand (defaultSandboxConfig "/ws") "sudo reboot" = CmdCheck.blocked "sudo"
    ∧ validateCommand (defaultSandboxConfig "/ws") "echo hello" = CmdCheck.ok
    ∧ validateCommand (defaultSandboxConfig "/ws") "ls -la" = CmdCheck.ok := by decide

/-- Claim C6: when the subprocess spawned by `Executor.bash` hits the
timeout, the kill branch runs (second component `true`) and the result is
the distinct timeout outcome — `timed_out = true` with the fixed sentinel
exit code 124 and error status; a mere non-zero exit `n` instead yields
`timed_out = false` with the real exit code `n`. -/
theorem bash_timeout_distinct (cfg : SandboxConfig) (command : String)
    (hv : validateCommand cfg command = CmdCheck.ok) :
    ((bashModel cfg command none ProcOutcome.timedOut).1.timed_out = true
      ∧ (bashModel cfg command none ProcOutcome.timedOut).1.exit_code = 124
      ∧ (bashModel cfg command none ProcOutcome.timedOut).1.status = MStatus.error
      ∧ (bashModel cfg command none ProcOutcome.timedOut).2 = true)
    ∧ ∀ (n : Int) (out err : String), n ≠ 0 →
        (bashModel cfg command none (ProcOutcome.completed (some n) out err)).1.timed_out = false
        ∧ (bashModel cfg command none (ProcOutcome.completed (some n) out err)).1.exit_code = n
        ∧ (bashModel cfg command none (ProcOutcome.completed (some n) out err)).1.status
            = MStatus.error := by
  constructor
  · simp [bashModel, hv, mCommandError]
  · intro n out err hn
    simp [bashModel, hv, hn, mCommandError]

/-- Witness for C6 at the command `"sleep 10"` timing out. -/
theorem bash_timeout_distinct_witness :
    validateCommand (defaultSandboxConfig "/ws") "sleep 10" = CmdCheck.ok
    ∧ (bashModel (defaultSandboxConfig "/ws") "sleep 10" none ProcOutcome.timedOut).1.timed_out
        = true
    ∧ (bashModel (defaultSandboxConfig "/ws") "sleep 10" none ProcOutcome.timedOut).1.exit_code
        = 124
    ∧ (bashModel (defaultSandboxConfig "/ws") "sleep 10" none ProcOutcome.timedOut).2 = true :=
  ⟨by decide,
   (bash_timeout_distinct (defaultSandboxConfig "/ws") "sleep 10" (by decide)).1.1,
   (bash_timeout_distinct (defaultSandboxConfig "/ws") "sleep 10" (by decide)).1.2.1,
   (bash_timeout_distinct (defaultSandboxConfig "/ws") "sleep 10" (by decide)).1.2.2.2⟩

/-- Claim C7: every key `get_safe_env` emits is in the fixed allow-list,
HOME and PWD are pinned to the canonical workspace root, and PATH is always
present — for every host environment. -/
theorem get_safe_env_allowlist (cfg : SandboxConfig) (hostEnv : EnvMap) (kv : String × String)
    (hkv : kv ∈ getSafeEnv cfg hostEnv) :
    kv.1 ∈ safeEnvAllowList
    ∧ envLookup (getSafeEnv cfg hostEnv) "HOME" = some (compsToString (sandboxWorkspace cfg))
    ∧ envLookup (getSafeEnv cfg hostEnv) "PWD" = some (compsToString (sandboxWorkspace cfg))
    ∧ (envLookup (getSafeEnv cfg hostEnv) "PATH").isSome = true := by
  refine ⟨?_, ?_, ?_, ?_⟩
  · simp only [getSafeEnv] at hkv
    rcases List.mem_append.mp hkv with h | h
    · fin_cases h <;> simp [safeEnvAllowList]
    · have h1 := mem_env_filterMap h
      have hsub : ∀ y ∈ safeInheritVars ++ venvVars, y ∈ safeEnvAllowList := by decide
      exact hsub _ h1
  · simp only [getSafeEnv, envLookup]
    rw [List.find?_append, List.find?_cons_of_neg _ (by simp),
      List.find?_cons_of_pos _ (by simp)]
    rfl
  · simp only [getSafeEnv, envLookup]
    rw [List.find?_append, List.find?_cons_of_neg _ (by simp),
      List.find?_cons_of_neg _ (by simp), List.find?_cons_of_pos _ (by simp)]
    rfl
  · simp only [getSafeEnv, envLookup]
    rw [List.find?_append, List.find?_cons_of_pos _ (by simp)]
    rfl

/-- Witness for C7 at a host environment carrying a non-allow-listed
variable. -/
theorem get_safe_env_allowlist_witness :
    ("PATH", "/p") ∈ getSafeEnv (defaultSandboxConfig "/ws") [("PATH", "/p"), ("SECRET", "s")]
    ∧ (("PATH", "/p").1 ∈ safeEnvAllowList
      ∧ envLookup (getSafeEnv (defaultSandboxConfig "/ws") [("PATH", "/p"), ("SECRET", "s")])
            "HOME"
          = some (compsToString (sandboxWorkspace (defaultSandboxConfig "/ws")))
      ∧ envLookup (getSafeEnv (defaultSandboxConfig "/ws") [("PATH", "/p"), ("SECRET", "s")])
            "PWD"
          = some (compsToString (sandboxWorkspace (defaultSandboxConfig "/ws")))
      ∧ (envLookup (getSafeEnv (defaultSandboxConfig "/ws") [("PATH", "/p"), ("SECRET", "s")])
            "PATH").isSome = true) :=
  ⟨by decide, get_safe_env_allowlist (defaultSandboxConfig "/ws")
    [("PATH", "/p"), ("SECRET", "s")] ("PATH", "/p") (by decide)⟩

/-- Claim C9: when the UTF-8 byte length of the content exceeds
`max_file_size`, `Editor.write` returns an error result with the
filesystem unchanged — the size check precedes every modification — and
`check_file_size` fails exactly on sizes strictly greater than the
ceiling. -/
theorem editor_write_size_guard (cfg : SandboxConfig) (fs : MFileSystem)
    (path content : String) (create_dirs : Bool)
    (h : sUtf8Len content > cfg.max_file_size) :
    ((editorWrite cfg fs path content create_dirs).1 = MStatus.error
      ∧ (editorWrite cfg fs path content create_dirs).2 = fs)
    ∧ ∀ size : Nat, checkFileSizeFails cfg size = true ↔ size > cfg.max_file_size := by
  constructor
  · simp only [editorWrite]
    by_cases hw : cfg.allow_write = true
    · cases hres : sandboxResolvePath cfg path with
      | err e => simp [hw, hres]
      | ok resolved =>
        have hsize : checkFileSizeFails cfg (sUtf8Len content) = true := by
          simp [checkFileSizeFails, h]
        simp [hw, hres, hsize]
    · simp [hw]
  · intro size
    simp [checkFileSizeFails]

/-- Witness for C9: a 3-byte content against a 2-byte ceiling. -/
theorem editor_write_size_guard_witness :
    sUtf8Len "abc" > ({ defaultSandboxConfig "/ws" with max_file_size := 2 }
        : SandboxConfig).max_file_size
    ∧ (editorWrite { defaultSandboxConfig "/ws" with max_file_size := 2 } ⟨[], []⟩
        "a.txt" "abc" true).1 = MStatus.error
    ∧ (editorWrite { defaultSandboxConfig "/ws" with max_file_size := 2 } ⟨[], []⟩
        "a.txt" "abc" true).2 = (⟨[], []⟩ : MFileSystem) :=
  ⟨by decide,
   (editor_write_size_guard { defaultSandboxConfig "/ws" with max_file_size := 2 } ⟨[], []⟩
     "a.txt" "abc" true (by decide)).1.1,
   (editor_write_size_guard { defaultSandboxConfig "/ws" with max_file_size := 2 } ⟨[], []⟩
     "a.txt" "abc" true (by decide)).1.2⟩

/-- Claim C8: when several configured directories contain a skill of the
same name, `discover_skills` over the directory list built by
`SkillManager.__init__` (user directories first, built-in last) returns
EXACTLY one entry of that name: the first candidate in priority scan
order. -/
theorem discover_shadowing (fs : SkillFS) (userDirs : List String) (builtinDir : String)
    (x : String) (s : MSkillInfo)
    (h : firstHit fs (initSkillsDirs fs userDirs builtinDir) x = some s) :
    (discoverSkills fs (initSkillsDirs fs userDirs builtinDir)).filter (fun si => si.name == x)
      = [s] := by
  rw [discover_filter, h]
  rfl

/-- Witness for C8: two directories both holding a skill named `x`; the
user-listed directory `u` wins over the built-in `b`. -/
theorem discover_shadowing_witness :
    firstHit
        [("u", [⟨"x", true, true, some ⟨some "x", some "du"⟩⟩]),
         ("b", [⟨"x", true, true, some ⟨some "x", some "db"⟩⟩])]
        (initSkillsDirs
          [("u", [⟨"x", true, true, some ⟨some "x", some "du"⟩⟩]),
           ("b", [⟨"x", true, true, some ⟨some "x", some "db"⟩⟩])]
          ["u"] "b") "x" = some ⟨"x", "du", "u/x"⟩
    ∧ (discoverSkills
          [("u", [⟨"x", true, true, some ⟨some "x", some "du"⟩⟩]),
           ("b", [⟨"x", true, true, some ⟨some "x", some "db"⟩⟩])]
          (initSkillsDirs
            [("u", [⟨"x", true, true, some ⟨some "x", some "du"⟩⟩]),
             ("b", [⟨"x", true, true, some ⟨some "x", some "db"⟩⟩])]
            ["u"] "b")).filter (fun si => si.name == "x")
        = [⟨"x", "du", "u/x"⟩] :=
  ⟨by decide, discover_shadowing _ _ _ _ _ (by decide)⟩

/-- Claim C10: after a successful `SkillManager.create`, the created
directory's parent is among the manager's search directories, and —
provided no directory scanned no later than the parent already held a
skill of that name — `find_skill` returns the newly created skill, whose
path is the created directory. -/
theorem create_then_find (skillsDirs : List String) (builtinDir : String) (fs : SkillFS)
    (name desc : String) (targetDir : Option String)
    (hok : (skillCreate skillsDirs builtinDir fs name desc targetDir).status = MStatus.success)
    (hbefore : ∀ d ∈ ((skillCreate skillsDirs builtinDir fs name desc targetDir).skillsDirs.takeWhile
        (fun d => !(d == targetDir.getD builtinDir))),
        ∀ s ∈ scanDir fs d, (s.name == name) = false)
    (hparent : ∀ s ∈ scanDir fs (targetDir.getD builtinDir), (s.name == name) = false) :
    (targetDir.getD builtinDir)
        ∈ (skillCreate skillsDirs builtinDir fs name desc targetDir).skillsDirs
    ∧ findSkill (skillCreate skillsDirs builtinDir fs name desc targetDir).fs
        (skillCreate skillsDirs builtinDir fs name desc targetDir).skillsDirs name
      = some ⟨name, desc, (targetDir.getD builtinDir) ++ "/" ++ name⟩ := by
  cases hv : validSkillName name with
  | false => simp [skillCreate, hv] at hok
  | true =>
  cases hex : dirHasEntry fs (targetDir.getD builtinDir) name with
  | true => simp [skillCreate, hv, hex] at hok
  | false =>
  have hfs : (skillCreate skillsDirs builtinDir fs name desc targetDir).fs
      = fsAddEntry fs (targetDir.getD builtinDir) ⟨name, true, true, some ⟨some name, some desc⟩⟩ := by
    simp [skillCreate, hv, hex]
  have hdirs : (skillCreate skillsDirs builtinDir fs name desc targetDir).skillsDirs
      = (if skillsDirs.contains (targetDir.getD builtinDir) = true then skillsDirs
         else skillsDirs ++ [targetDir.getD builtinDir]) := by
    simp [skillCreate, hv, hex]
  have hmem : (targetDir.getD builtinDir)
      ∈ (skillCreate skillsDirs builtinDir fs name desc targetDir).skillsDirs := by
    rw [hdirs]
    by_cases hc : skillsDirs.contains (targetDir.getD builtinDir) = true
    · rw [if_pos hc]
      exact List.mem_of_elem_eq_true hc
    · rw [if_neg hc]
      exact List.mem_append_right _ (List.mem_singleton.mpr rfl)
  refine ⟨hmem, ?_⟩
  obtain ⟨tl, htl⟩ := dropWhile_ne_cons hmem
  have hsplit : (skillCreate skillsDirs builtinDir fs name desc targetDir).skillsDirs
      = (skillCreate skillsDirs builtinDir fs name desc targetDir).skillsDirs.takeWhile
          (fun d => !(d == targetDir.getD builtinDir))
        ++ (targetDir.getD builtinDir) :: tl := by
    have hjoin := List.takeWhile_append_dropWhile
      (fun d => !(d == targetDir.getD builtinDir))
      ((skillCreate skillsDirs builtinDir fs name desc targetDir).skillsDirs)
    rw [htl] at hjoin
    exact hjoin.symm
  suffices hfh : firstHit (skillCreate skillsDirs builtinDir fs name desc targetDir).fs
      (skillCreate skillsDirs builtinDir fs name desc targetDir).skillsDirs name
      = some ⟨name, desc, (targetDir.getD builtinDir) ++ "/" ++ name⟩ by
    simp only [findSkill]
    rw [find_eq_filterHead, discover_filter, hfh]
    rfl
  simp only [firstHit]
  rw [hsplit, scanAll_append]
  rw [List.find?_append]
  have hA : (scanAll (skillCreate skillsDirs builtinDir fs name desc targetDir).fs
      ((skillCreate skillsDirs builtinDir fs name desc targetDir).skillsDirs.takeWhile
        (fun d => !(d == targetDir.getD builtinDir)))).find? (fun s => s.name == name)
      = none := by
    rw [List.find?_eq_none]
    intro y hy
    obtain ⟨d, hd, hyd⟩ := mem_scanAll _ _ _ hy
    have hdpred := mem_takeWhile_pred hd
    have hdne : d ≠ targetDir.getD builtinDir := by
      intro he
      rw [he] at hdpred
      simp at hdpred
    have hscan : scanDir (skillCreate skillsDirs builtinDir fs name desc targetDir).fs d
        = scanDir fs d := by
      rw [hfs]
      simp only [scanDir_eq_getD]
      rw [fsDirEntries_addEntry_ne _ _ _ _ hdne]
    rw [hscan] at hyd
    have hname := hbefore d hd y hyd
    simp [hname]
  rw [hA]
  have hbase_scan : scanDir (skillCreate skillsDirs builtinDir fs name desc targetDir).fs
      (targetDir.getD builtinDir)
      = scanDir fs (targetDir.getD builtinDir)
        ++ [⟨name, desc, (targetDir.getD builtinDir) ++ "/" ++ name⟩] := by
    rw [hfs]
    simp only [scanDir_eq_getD]
    rw [fsDirEntries_addEntry_self]
    simp only [Option.getD_some]
    rw [List.filterMap_append]
    congr 1
  have hcons : scanAll (skillCreate skillsDirs builtinDir fs name desc targetDir).fs
      ((targetDir.getD builtinDir) :: tl)
      = scanDir (skillCreate skillsDirs builtinDir fs name desc targetDir).fs
          (targetDir.getD builtinDir)
        ++ scanAll (skillCreate skillsDirs builtinDir fs name desc targetDir).fs tl := rfl
  rw [hcons, hbase_scan, List.find?_append, List.find?_append]
  have hold : (scanDir fs (targetDir.getD builtinDir)).find? (fun s => s.name == name)
      = none := by
    rw [List.find?_eq_none]
    intro y hy
    have hname := hparent y hy
    simp [hname]
  rw [hold, List.find?_cons_of_pos _ (by simp)]
  rfl

/-- Witness for C10: creating `my-skill` in the built-in directory `b`
next to a user directory `u`, then finding it. -/
theorem create_then_find_witness :
    ((none : Option String).getD "b")
        ∈ (skillCreate ["u"] "b" [("u", []), ("b", [])] "my-skill" "d" none).skillsDirs
    ∧ findSkill (skillCreate ["u"] "b" [("u", []), ("b", [])] "my-skill" "d" none).fs
        (skillCreate ["u"] "b" [("u", []), ("b", [])] "my-skill" "d" none).skillsDirs "my-skill"
      = some ⟨"my-skill", "d", ((none : Option String).getD "b") ++ "/" ++ "my-skill"⟩ :=
  create_then_find ["u"] "b" [("u", []), ("b", [])] "my-skill" "d" none
    (by decide) (by decide) (by decide)
